import Mathlib

/-!
Shallow embedding of `src/server.js` (vongocnhan16/server-vertex-search):
a batch pipeline that groups message records by `userPhone`, provisions a
Vertex AI Search datastore and search app per tenant, stages the records of
the tenant as a JSONL file, uploads it to GCS, triggers an import, and deletes
the staged file.

Remote services (datastore/search-app creation, upload, import), the token
provider, the clock (`Date.now()`) and filesystem write/delete outcomes are
modelled by an environment of oracles (`Env`); the observable behaviour of
the pipeline is a trace of attempted calls plus explicit state (local files,
the module-level `userDatastores` registry, a `Date.now()` call counter).
Strings are modelled as sequences of Unicode scalar values and the JS
object holding the tenant groups is modelled as an own-property dictionary
with the ECMAScript key-enumeration order (canonical array-index keys in
ascending numeric order first, then the remaining keys in insertion order).
-/

set_option maxRecDepth 16000

deriving instance DecidableEq for Except

namespace VertexSearch

/-- A parsed input record (one element of the JSON array in `input.json`).
`timestamp` is `none` when the field is missing or not a string, so that
`m.timestamp.replace` in the source throws a `TypeError`. -/
structure InputRecord where
  userPhone : String
  timestamp : Option String
  message : String
  deriving DecidableEq, Repr

/-- One staged document: `{ id, content, structData }` as built on line 116
of `server.js`. -/
structure StagingDocument where
  id : String
  content : String
  structData : InputRecord
  deriving DecidableEq, Repr

/-- One character of the sanitizer `replace(/[^a-zA-Z0-9_-]/g, "_")`. -/
def sanitizeChar (c : Char) : Char :=
  if (('a' ≤ c ∧ c ≤ 'z') ∨ ('A' ≤ c ∧ c ≤ 'Z') ∨ ('0' ≤ c ∧ c ≤ '9') ∨ c = '_' ∨ c = '-')
  then c else '_'

/-- `timestamp.replace(/[^a-zA-Z0-9_-]/g, "_")` from line 116. -/
def sanitizeId (s : String) : String := String.mk (s.data.map sanitizeChar)

/-- Lower-case hexadecimal digit, as used by `JSON.stringify` for
`\u00XX` escapes of control characters. -/
def hexDigit (n : Nat) : Char :=
  if n < 10 then Char.ofNat (48 + n) else Char.ofNat (87 + n)

/-- `JSON.stringify` escaping of one character inside a string literal. -/
def escapeChar (c : Char) : List Char :=
  if c = '"' then ['\\', '"']
  else if c = '\\' then ['\\', '\\']
  else if c = '\n' then ['\\', 'n']
  else if c = '\r' then ['\\', 'r']
  else if c = '\t' then ['\\', 't']
  else if c = '\x08' then ['\\', 'b']
  else if c = '\x0c' then ['\\', 'f']
  else if c.toNat < 32 then ['\\', 'u', '0', '0', hexDigit (c.toNat / 16), hexDigit (c.toNat % 16)]
  else [c]

/-- `JSON.stringify` escaping of a whole string (without the quotes). -/
def escapeString (s : String) : String := String.mk ((s.data.map escapeChar).flatten)

/-- A JSON string literal: quotes around the escaped content. -/
def quoteJson (s : String) : String := "\"" ++ escapeString s ++ "\""

/-- `JSON.stringify` of a whole input record (the `structData: m` field);
a missing timestamp is simply omitted, as `JSON.stringify` omits
`undefined` properties. -/
def stringifyRecord (m : InputRecord) : String :=
  "\x7b" ++ quoteJson "userPhone" ++ ":" ++ quoteJson m.userPhone ++
  (match m.timestamp with
   | some t => "," ++ quoteJson "timestamp" ++ ":" ++ quoteJson t
   | none => "") ++
  "," ++ quoteJson "message" ++ ":" ++ quoteJson m.message ++ "\x7d"

/-- `JSON.stringify({ id: ..., content: ..., structData: m })` (line 116). -/
def stringifyDoc (d : StagingDocument) : String :=
  "\x7b" ++ quoteJson "id" ++ ":" ++ quoteJson d.id ++
  "," ++ quoteJson "content" ++ ":" ++ quoteJson d.content ++
  "," ++ quoteJson "structData" ++ ":" ++ stringifyRecord d.structData ++ "\x7d"

/-- The `TypeError` thrown by `m.timestamp.replace` when `timestamp` is
missing or not a string (modelled as a fixed message). -/
def typeErrorMsg : String := "TypeError: m.timestamp.replace is not a function"

/-- Build one staged document from one record (the body of the `.map` on
line 116); throws a `TypeError` when the timestamp is absent. -/
def buildDoc (m : InputRecord) : Except String StagingDocument :=
  match m.timestamp with
  | none => Except.error typeErrorMsg
  | some t => Except.ok { id := sanitizeId t, content := m.message, structData := m }

/-- `userGroups[userPhone].map(...)`: left-to-right, first throw aborts. -/
def buildDocs : List InputRecord → Except String (List StagingDocument)
  | [] => Except.ok []
  | m :: ms =>
    match buildDoc m with
    | Except.error e => Except.error e
    | Except.ok d =>
      match buildDocs ms with
      | Except.error e => Except.error e
      | Except.ok ds => Except.ok (d :: ds)

/-- `Array.prototype.join("\n")`. -/
def joinNL : List String → String
  | [] => ""
  | [s] => s
  | s :: rest => s ++ "\n" ++ joinNL rest

/-- Lines 115–117: `rows.map(JSON.stringify(...)).join("\n") + "\n"`. -/
def buildJsonl (g : List InputRecord) : Except String String :=
  match buildDocs g with
  | Except.error e => Except.error e
  | Except.ok docs => Except.ok (joinNL (docs.map stringifyDoc) ++ "\n")

/-- Splitting a character sequence at every newline; `splitLines l` always
has one more element than the number of newline characters in `l`, so a
text of n newline-terminated lines splits as those n lines followed by `[]`. -/
def splitLines : List Char → List (List Char)
  | [] => [[]]
  | c :: cs =>
    if c = '\n' then [] :: splitLines cs
    else
      match splitLines cs with
      | [] => [[c]]
      | l :: ls => (c :: l) :: ls

/-- Lines 96–100: add one record to the tenant groups
(`if (!userGroups[k]) userGroups[k] = []; userGroups[k].push(row)`),
modelling the JS object as an insertion-ordered association list. -/
def addToGroups : List (String × List InputRecord) → InputRecord → List (String × List InputRecord)
  | [], r => [(r.userPhone, [r])]
  | (k, rs) :: gs, r =>
    if k = r.userPhone then (k, rs ++ [r]) :: gs else (k, rs) :: addToGroups gs r

/-- The whole grouping loop of lines 96–100. -/
def userGroupsOf (rows : List InputRecord) : List (String × List InputRecord) :=
  rows.foldl addToGroups []

/-- Property lookup `userGroups[u]` (empty when absent; in every reachable
use the key is present). -/
def findGroup : List (String × List InputRecord) → String → List InputRecord
  | [], _ => []
  | (k, rs) :: gs, u => if k = u then rs else findGroup gs u

/-- The distinct keys of a list in first-occurrence order, given a list of
already-seen keys. -/
def dedupFirstAux (seen : List String) : List String → List String
  | [] => []
  | k :: ks =>
    if k ∈ seen then dedupFirstAux seen ks
    else k :: dedupFirstAux (k :: seen) ks

/-- The distinct keys of a list in first-occurrence order. -/
def dedupFirst (ks : List String) : List String := dedupFirstAux [] ks

/-- Is a character a decimal digit? -/
def isDigitChar (c : Char) : Bool := decide ('0' ≤ c ∧ c ≤ '9')

/-- Parse a nonempty all-digit string as a natural number. -/
def strToNat (s : String) : Option Nat :=
  if s.data ≠ [] ∧ s.data.all isDigitChar
  then some (s.data.foldl (fun n c => n * 10 + (c.toNat - 48)) 0)
  else none

/-- ECMAScript array-index property name: the canonical decimal string of
an integer `0 ≤ n < 2^32 - 1`. -/
def isArrayIndex (s : String) : Bool :=
  match strToNat s with
  | some n => Nat.repr n == s && decide (n < 4294967295)
  | none => false

/-- Numeric value of an array-index key. -/
def keyVal (s : String) : Nat := (strToNat s).getD 0

/-- Insertion into a list sorted ascending by `keyVal`. -/
def insertKey (s : String) : List String → List String
  | [] => [s]
  | t :: ts => if keyVal s ≤ keyVal t then s :: t :: ts else t :: insertKey s ts

/-- ECMAScript own-property key enumeration order (`Object.keys`):
array-index keys ascending by numeric value, then the remaining string
keys in insertion order. -/
def objectKeysOrder (ks : List String) : List String :=
  (ks.filter (fun k => isArrayIndex k)).foldr insertKey [] ++
  ks.filter (fun k => !(isArrayIndex k))

/-- `Object.keys(userGroups)` (line 104). -/
def tenantObjectKeys (groups : List (String × List InputRecord)) : List String :=
  objectKeysOrder (groups.map Prod.fst)

/-- One attempted effect of the pipeline, in the order the source issues
them; an event is recorded whether or not the call succeeds. -/
inductive Event where
  | createDataStore (datastoreId : String)
  | createSearchApp (searchAppId : String) (datastoreId : String)
  | writeFile (filePath : String) (content : String)
  | upload (localPath : String) (destFileName : String) (destPfx : String)
  | importData (datastoreId : String) (gcsPath : String)
  | deleteFile (filePath : String)
  deriving DecidableEq, Repr

/-- Environment of oracles for everything outside the pipeline: `none`
means the call succeeds, `some e` that it throws with message `e`;
`now k` is the value of the k-th `Date.now()` call. -/
structure Env where
  token : Except String String
  ds : String → Option String
  sapp : String → String → Option String
  wr : String → String → Option String
  upl : String → String → String → Option String
  imp : String → String → Option String
  rm : String → Option String
  now : Nat → Nat

/-- Process state threaded through the pipeline: the `Date.now()` call
counter, the local filesystem (path to content), the module-level
`userDatastores` registry (line 88), and the trace of attempted calls. -/
structure BState where
  clock : Nat
  files : List (String × String)
  registry : List (String × String × String)
  trace : List Event
  deriving DecidableEq, Repr

/-- The state of a freshly started process. -/
def initState : BState := { clock := 0, files := [], registry := [], trace := [] }

/-- `userDatastores[userPhone] = { datastoreId, searchAppId }` (line 111). -/
def setRegistry : List (String × String × String) → String → String → String → List (String × String × String)
  | [], u, d, a => [(u, d, a)]
  | (k, x, y) :: rest, u, d, a =>
    if k = u then (u, d, a) :: rest else (k, x, y) :: setRegistry rest u d a

/-- Lookup in the `userDatastores` registry. -/
def lookupRegistry : List (String × String × String) → String → Option (String × String)
  | [], _ => none
  | (k, x, y) :: rest, u => if k = u then some (x, y) else lookupRegistry rest u

/-- `fs.writeFileSync`: create or overwrite the file at a path. -/
def setFile : List (String × String) → String → String → List (String × String)
  | [], p, c => [(p, c)]
  | (q, x) :: rest, p, c =>
    if q = p then (p, c) :: rest else (q, x) :: setFile rest p c

/-- `fs.unlinkSync`: remove the file at a path. -/
def removeFile (fs : List (String × String)) (p : String) : List (String × String) :=
  fs.filter (fun kv => kv.1 ≠ p)

/-- Does a file exist at a path, and with which content? -/
def lookupFile : List (String × String) → String → Option String
  | [], _ => none
  | (q, x) :: rest, p => if q = p then some x else lookupFile rest p

/-- `` `datastore-${userPhone}-${Date.now()}` `` (line 105). -/
def dsIdOf (u : String) (t : Nat) : String := "datastore-" ++ u ++ "-" ++ Nat.repr t

/-- `` `searchapp-${userPhone}-${Date.now()}` `` (line 106). -/
def saIdOf (u : String) (t : Nat) : String := "searchapp-" ++ u ++ "-" ++ Nat.repr t

/-- `path.join(os.tmpdir(), userPhone + "-messages.jsonl")` (line 114). -/
def tmpPathOf (u : String) : String := "/tmp/" ++ u ++ "-messages.jsonl"

/-- The locator `uploadFileToGCS` returns (lines 68–73). -/
def gcsPathOf (u : String) : String :=
  "gs://vertex-ai-search-bucket-123/" ++ u ++ "/messages.jsonl"

/-- The body of the per-tenant loop, lines 105–126: create datastore,
create search app, record in the registry, build and write the JSONL file,
upload, import, delete the file. Returns the new state and `some e` when a
step threw with message `e` (then all later steps are skipped). -/
def stepTenant (env : Env) (s : BState) (u : String) (g : List InputRecord) : BState × Option String :=
  let d := dsIdOf u (env.now s.clock)
  let a := saIdOf u (env.now (s.clock + 1))
  let s1 : BState := { s with clock := s.clock + 2, trace := s.trace ++ [Event.createDataStore d] }
  match env.ds d with
  | some e => (s1, some e)
  | none =>
    let s2 : BState := { s1 with trace := s1.trace ++ [Event.createSearchApp a d] }
    match env.sapp a d with
    | some e => (s2, some e)
    | none =>
      let s3 : BState := { s2 with registry := setRegistry s2.registry u d a }
      let p := tmpPathOf u
      match buildJsonl g with
      | Except.error e => (s3, some e)
      | Except.ok content =>
        let s4 : BState := { s3 with trace := s3.trace ++ [Event.writeFile p content] }
        match env.wr p content with
        | some e => (s4, some e)
        | none =>
          let s5 : BState := { s4 with files := setFile s4.files p content }
          let s6 : BState := { s5 with trace := s5.trace ++ [Event.upload p "messages.jsonl" u] }
          match env.upl p "messages.jsonl" u with
          | some e => (s6, some e)
          | none =>
            let gp := gcsPathOf u
            let s7 : BState := { s6 with trace := s6.trace ++ [Event.importData d gp] }
            match env.imp d gp with
            | some e => (s7, some e)
            | none =>
              let s8 : BState := { s7 with trace := s7.trace ++ [Event.deleteFile p] }
              match env.rm p with
              | some e => (s8, some e)
              | none => ({ s8 with files := removeFile s8.files p }, none)

/-- The loop `for (const userPhone of Object.keys(userGroups))`
(lines 104–127): the first throw aborts the whole batch. -/
def runKeys (env : Env) (groups : List (String × List InputRecord)) : BState → List String → BState × Except String Unit
  | s, [] => (s, Except.ok ())
  | s, u :: ks =>
    match stepTenant env s u (findGroup groups u) with
    | (s2, none) => runKeys env groups s2 ks
    | (s2, some e) => (s2, Except.error e)

/-- `processInputFile` (lines 92–128): group the rows, fetch one token,
then run the per-tenant pipeline over `Object.keys(userGroups)`. -/
def processInputFile (env : Env) (s : BState) (rows : List InputRecord) : BState × Except String Unit :=
  let groups := userGroupsOf rows
  match env.token with
  | Except.error e => (s, Except.error e)
  | Except.ok _ => runKeys env groups s (tenantObjectKeys groups)

/-- The JSON body the `/api/process` handler responds with. -/
inductive ApiResponse where
  | ok (success : Bool) (message : String)
  | err (status : Nat) (error : String)
  deriving DecidableEq, Repr

/-- The `/api/process` handler (lines 131–139): `try { await
processInputFile(...); res.json({success, message}) } catch (err) {
res.status(500).json({error: err.message}) }`. -/
def apiProcess (env : Env) (s : BState) (rows : List InputRecord) : BState × ApiResponse :=
  match processInputFile env s rows with
  | (s2, Except.ok _) => (s2, ApiResponse.ok true "Processed all users!")
  | (s2, Except.error e) => (s2, ApiResponse.err 500 e)

/-- The six effects a fully successful tenant iteration issues, in source
order; the trace contribution of every iteration is a prefix of this list. -/
def tenantCallSeq (u d a content : String) : List Event :=
  [Event.createDataStore d, Event.createSearchApp a d,
   Event.writeFile (tmpPathOf u) content,
   Event.upload (tmpPathOf u) "messages.jsonl" u,
   Event.importData d (gcsPathOf u),
   Event.deleteFile (tmpPathOf u)]

/-- An environment in which every remote call and file operation succeeds
and `Date.now()` always returns 7. -/
def envAllOk : Env :=
  { token := Except.ok "tok", ds := fun _ => none, sapp := fun _ _ => none,
    wr := fun _ _ => none, upl := fun _ _ _ => none, imp := fun _ _ => none,
    rm := fun _ => none, now := fun _ => 7 }

/-- Like `envAllOk`, but `createSearchApp` fails for tenant `b`. -/
def envSappFail : Env :=
  { envAllOk with sapp := fun a _ => if a = "searchapp-b-7" then some "sapp boom" else none }

/-- Like `envAllOk`, but every GCS upload fails. -/
def envUplFail : Env :=
  { envAllOk with upl := fun _ _ _ => some "upload failed" }

/-- Like `envAllOk`, but every import call fails. -/
def envImpFail : Env :=
  { envAllOk with imp := fun _ _ => some "import failed" }

/-- Example records used as concrete inputs. -/
def recA : InputRecord := { userPhone := "a", timestamp := some "2024-01-01T00:00:00Z", message := "hi" }

def recB : InputRecord := { userPhone := "b", timestamp := some "2024-01-02T00:00:00Z", message := "yo" }

def recC : InputRecord := { userPhone := "c", timestamp := some "2024-01-03T00:00:00Z", message := "hey" }

/-- Records whose tenant keys are canonical array-index strings. -/
def rec2 : InputRecord := { userPhone := "2", timestamp := some "20240101", message := "hi" }

def rec1 : InputRecord := { userPhone := "1", timestamp := some "20240102", message := "yo" }

/-- Two records of one tenant with the same timestamp, hence the same
sanitized document id. -/
def recU1 : InputRecord := { userPhone := "u", timestamp := some "t!", message := "m1" }

def recU2 : InputRecord := { userPhone := "u", timestamp := some "t!", message := "m2" }

/-- A record whose timestamp is missing. -/
def recNoTs : InputRecord := { userPhone := "u", timestamp := none, message := "m" }

/-- The staged JSONL content for the duplicate-id example group
`[recU1, recU2]` (both sanitize to id `t_`). -/
def dupIdContent : String :=
  match buildJsonl [recU1, recU2] with
  | Except.ok c => c
  | Except.error _ => ""

end VertexSearch
namespace VertexSearch

theorem hexDigit_ne_nl (n : Nat) (h : n < 16) : hexDigit n ≠ '\n' := by
  interval_cases n <;> decide

theorem nl_not_mem_escapeChar (c : Char) : '\n' ∉ escapeChar c := by
  unfold escapeChar
  split
  · decide
  · split
    · decide
    · split
      · decide
      · split
        · decide
        · split
          · decide
          · split
            · decide
            · split
              · decide
              · split
                · rename_i h8
                  intro hmem
                  simp only [List.mem_cons, List.not_mem_nil, or_false] at hmem
                  rcases hmem with hc | hc | hc | hc | hc | hc
                  · exact absurd hc (by decide)
                  · exact absurd hc (by decide)
                  · exact absurd hc (by decide)
                  · exact absurd hc (by decide)
                  · exact hexDigit_ne_nl _ (by omega) hc.symm
                  · exact hexDigit_ne_nl _ (by omega) hc.symm
                · rename_i h1 h2 h3 h4 h5 h6 h7 h8
                  intro hmem
                  simp only [List.mem_cons, List.not_mem_nil, or_false] at hmem
                  exact h3 hmem.symm

theorem nl_not_mem_escapeString (s : String) : '\n' ∉ (escapeString s).data := by
  unfold escapeString
  intro hmem
  simp only [String.mk] at hmem
  rw [List.mem_flatten] at hmem
  obtain ⟨l, hl, hnl⟩ := hmem
  rw [List.mem_map] at hl
  obtain ⟨c, _, rfl⟩ := hl
  exact nl_not_mem_escapeChar c hnl

theorem nl_not_mem_append {l1 l2 : List Char} (h1 : '\n' ∉ l1) (h2 : '\n' ∉ l2) :
    '\n' ∉ l1 ++ l2 := by
  intro h
  rcases List.mem_append.mp h with h | h
  · exact h1 h
  · exact h2 h

theorem nl_not_mem_quoteJson (s : String) : '\n' ∉ (quoteJson s).data := by
  unfold quoteJson
  repeat' apply nl_not_mem_append
  all_goals first
    | exact nl_not_mem_escapeString _
    | decide

theorem nl_not_mem_tsPart (o : Option String) :
    '\n' ∉ (match o with
      | some t => "," ++ quoteJson "timestamp" ++ ":" ++ quoteJson t
      | none => "").data := by
  rcases o with _ | t
  · decide
  · repeat' apply nl_not_mem_append
    all_goals first
      | exact nl_not_mem_escapeString _
      | decide

theorem nl_not_mem_stringifyRecord (m : InputRecord) : '\n' ∉ (stringifyRecord m).data := by
  unfold stringifyRecord
  repeat' apply nl_not_mem_append
  all_goals first
    | exact nl_not_mem_escapeString _
    | exact nl_not_mem_tsPart _
    | decide

theorem nl_not_mem_stringifyDoc (d : StagingDocument) : '\n' ∉ (stringifyDoc d).data := by
  unfold stringifyDoc
  repeat' apply nl_not_mem_append
  all_goals first
    | exact nl_not_mem_escapeString _
    | exact nl_not_mem_tsPart _
    | decide

theorem splitLines_append (l rest : List Char) (h : '\n' ∉ l) :
    splitLines (l ++ '\n' :: rest) = l :: splitLines rest := by
  induction l with
  | nil => simp [splitLines]
  | cons c cs ih =>
    have hc : ¬(c = '\n') := fun hh => h (by rw [hh]; exact List.mem_cons_self '\n' cs)
    have ih2 := ih (fun hm => h (List.mem_cons_of_mem c hm))
    simp [splitLines, hc, ih2]

theorem splitLines_joinNL (strs : List String) (hne : strs ≠ [])
    (h : ∀ t ∈ strs, '\n' ∉ t.data) :
    splitLines ((joinNL strs ++ "\n").data) = strs.map String.data ++ [[]] := by
  induction strs with
  | nil => exact absurd rfl hne
  | cons a rest ih =>
    cases rest with
    | nil =>
      have ha : '\n' ∉ a.data := h a (List.mem_cons_self a [])
      have : (joinNL [a] ++ "\n").data = a.data ++ '\n' :: [] := by
        simp [joinNL, String.data_append]
      rw [this, splitLines_append a.data [] ha]
      simp [splitLines]
    | cons b rest2 =>
      have ha : '\n' ∉ a.data := h a (List.mem_cons_self a (b :: rest2))
      have hrest : ∀ t ∈ b :: rest2, '\n' ∉ t.data :=
        fun t ht => h t (List.mem_cons_of_mem a ht)
      have hdata : (joinNL (a :: b :: rest2) ++ "\n").data
          = a.data ++ '\n' :: ((joinNL (b :: rest2) ++ "\n").data) := by
        show ((a ++ "\n" ++ joinNL (b :: rest2)) ++ "\n").data = _
        simp [String.data_append, List.append_assoc]
      rw [hdata, splitLines_append _ _ ha, ih (by simp) hrest]
      simp

theorem buildDocs_ok_of_ts (g : List InputRecord) (h : ∀ r ∈ g, r.timestamp ≠ none) :
    ∃ docs, buildDocs g = Except.ok docs := by
  induction g with
  | nil => exact ⟨[], rfl⟩
  | cons r g2 ih =>
    have hr : r.timestamp ≠ none := h r (List.mem_cons_self r g2)
    rcases hts : r.timestamp with _ | t
    · exact absurd hts hr
    · obtain ⟨ds, hds⟩ := ih (fun x hx => h x (List.mem_cons_of_mem r hx))
      refine ⟨{ id := sanitizeId t, content := r.message, structData := r } :: ds, ?_⟩
      simp [buildDocs, buildDoc, hts, hds]

theorem buildDocs_error_of_missing (g : List InputRecord)
    (h : ∃ r ∈ g, r.timestamp = none) :
    buildDocs g = Except.error typeErrorMsg := by
  induction g with
  | nil => simp at h
  | cons r g2 ih =>
    rcases hts : r.timestamp with _ | t
    · simp [buildDocs, buildDoc, hts]
    · have h2 : ∃ x ∈ g2, x.timestamp = none := by
        obtain ⟨x, hx, hxn⟩ := h
        rcases List.mem_cons.mp hx with rfl | hx2
        · rw [hts] at hxn; exact absurd hxn (by simp)
        · exact ⟨x, hx2, hxn⟩
      simp [buildDocs, buildDoc, hts, ih h2]

theorem buildDocs_ok_spec (g : List InputRecord) (docs : List StagingDocument)
    (hok : buildDocs g = Except.ok docs) :
    docs.length = g.length ∧
    ∀ i, (h1 : i < g.length) → (h2 : i < docs.length) →
      ∃ t, (g.get ⟨i, h1⟩).timestamp = some t ∧
        docs.get ⟨i, h2⟩ = { id := sanitizeId t, content := (g.get ⟨i, h1⟩).message,
                             structData := g.get ⟨i, h1⟩ } := by
  induction g generalizing docs with
  | nil =>
    simp only [buildDocs] at hok
    cases hok
    exact ⟨rfl, fun i h1 => absurd h1 (by simp)⟩
  | cons r g2 ih =>
    simp only [buildDocs] at hok
    rcases hd : buildDoc r with e | d
    · rw [hd] at hok; cases hok
    · rw [hd] at hok
      rcases hds : buildDocs g2 with e | ds
      · rw [hds] at hok; cases hok
      · rw [hds] at hok
        cases hok
        obtain ⟨hlen, hpt⟩ := ih ds hds
        refine ⟨by simp [hlen], ?_⟩
        intro i h1 h2
        match i with
        | 0 =>
          rcases hts : r.timestamp with _ | t
          · simp [buildDoc, hts] at hd
          · simp only [buildDoc, hts] at hd
            cases hd
            exact ⟨t, by simp [hts], by simp⟩
        | Nat.succ j =>
          obtain ⟨t, ht1, ht2⟩ := hpt j (by simpa using h1) (by simpa using h2)
          exact ⟨t, by simpa using ht1, by simpa using ht2⟩

theorem findGroup_addToGroups (gs : List (String × List InputRecord)) (r : InputRecord)
    (u : String) :
    findGroup (addToGroups gs r) u =
      if r.userPhone = u then findGroup gs u ++ [r] else findGroup gs u := by
  induction gs with
  | nil => by_cases h : r.userPhone = u <;> simp [addToGroups, findGroup, h]
  | cons p gs2 ih =>
    obtain ⟨k, rs⟩ := p
    by_cases hk : k = r.userPhone
    · subst hk
      by_cases hu : r.userPhone = u
      · simp [addToGroups, findGroup, hu]
      · simp [addToGroups, findGroup, hu]
    · by_cases hu : k = u
      · subst hu
        have hru : ¬(r.userPhone = k) := fun h => hk h.symm
        simp [addToGroups, findGroup, hk, hru]
      · simp [addToGroups, findGroup, hk, hu, ih]

theorem findGroup_foldl (rows : List InputRecord) :
    ∀ gs u, findGroup (rows.foldl addToGroups gs) u =
      findGroup gs u ++ rows.filter (fun r => r.userPhone == u) := by
  induction rows with
  | nil => intro gs u; simp
  | cons r rows2 ih =>
    intro gs u
    simp only [List.foldl_cons, List.filter_cons]
    rw [ih (addToGroups gs r) u, findGroup_addToGroups]
    by_cases h : r.userPhone = u
    · simp [h]
    · have hb : (r.userPhone == u) = false := by simpa using h
      simp [h, hb]

theorem findGroup_userGroupsOf (rows : List InputRecord) (u : String) :
    findGroup (userGroupsOf rows) u = rows.filter (fun r => r.userPhone == u) := by
  have := findGroup_foldl rows [] u
  simpa [userGroupsOf, findGroup] using this

theorem dedupFirstAux_congr (l : List String) : ∀ s1 s2, (∀ x, x ∈ s1 ↔ x ∈ s2) →
    dedupFirstAux s1 l = dedupFirstAux s2 l := by
  induction l with
  | nil => intro s1 s2 _; rfl
  | cons k ks ih =>
    intro s1 s2 hs
    by_cases hk : k ∈ s1
    · simp [dedupFirstAux, hk, (hs k).mp hk, ih s1 s2 hs]
    · have hk2 : k ∉ s2 := fun hh => hk ((hs k).mpr hh)
      simp only [dedupFirstAux, if_neg hk, if_neg hk2]
      rw [ih (k :: s1) (k :: s2) (by intro x; simp [hs x])]

theorem keys_addToGroups (gs : List (String × List InputRecord)) (r : InputRecord) :
    (addToGroups gs r).map Prod.fst =
      if r.userPhone ∈ gs.map Prod.fst then gs.map Prod.fst
      else gs.map Prod.fst ++ [r.userPhone] := by
  induction gs with
  | nil => simp [addToGroups]
  | cons p gs2 ih =>
    obtain ⟨k, rs⟩ := p
    by_cases hk : k = r.userPhone
    · subst hk; simp [addToGroups]
    · have hne : ¬(r.userPhone = k) := fun h => hk h.symm
      by_cases hm : r.userPhone ∈ gs2.map Prod.fst
      · simp [addToGroups, hk, ih, hm, hne]
      · simp [addToGroups, hk, ih, hm, hne]

theorem keys_foldl (rows : List InputRecord) : ∀ gs,
    (rows.foldl addToGroups gs).map Prod.fst =
      gs.map Prod.fst ++ dedupFirstAux (gs.map Prod.fst) (rows.map (fun r => r.userPhone)) := by
  induction rows with
  | nil => intro gs; simp [dedupFirstAux]
  | cons r rows2 ih =>
    intro gs
    simp only [List.foldl_cons, List.map_cons]
    rw [ih (addToGroups gs r), keys_addToGroups]
    by_cases hm : r.userPhone ∈ gs.map Prod.fst
    · simp [hm, dedupFirstAux]
    · simp only [if_neg hm, dedupFirstAux, if_neg hm]
      rw [dedupFirstAux_congr (rows2.map (fun r => r.userPhone)) (gs.map Prod.fst ++ [r.userPhone])
        (r.userPhone :: gs.map Prod.fst) (by intro x; simp [or_comm])]
      simp

theorem keys_userGroupsOf (rows : List InputRecord) :
    (userGroupsOf rows).map Prod.fst = dedupFirst (rows.map (fun r => r.userPhone)) := by
  have := keys_foldl rows []
  simpa [userGroupsOf, dedupFirst] using this

theorem stepTenant_trace_take (env : Env) (s : BState) (u : String) (g : List InputRecord) :
    ∃ content k, k ≤ 6 ∧
      (stepTenant env s u g).1.trace =
        s.trace ++ (tenantCallSeq u (dsIdOf u (env.now s.clock))
          (saIdOf u (env.now (s.clock + 1))) content).take k ∧
      ((2 ≤ k) ↔ env.ds (dsIdOf u (env.now s.clock)) = none) ∧
      (5 ≤ k → env.ds (dsIdOf u (env.now s.clock)) = none ∧
        env.sapp (saIdOf u (env.now (s.clock + 1))) (dsIdOf u (env.now s.clock)) = none) := by
  unfold stepTenant
  rcases hds : env.ds (dsIdOf u (env.now s.clock)) with _ | e
  · rcases hsapp : env.sapp (saIdOf u (env.now (s.clock + 1))) (dsIdOf u (env.now s.clock))
      with _ | e
    · rcases hb : buildJsonl g with e | content
      · refine ⟨"", 2, by omega, ?_, by simp [hds], by omega⟩
        simp [hds, hsapp, hb, tenantCallSeq, List.take]
      · rcases hwr : env.wr (tmpPathOf u) content with _ | e
        · rcases hupl : env.upl (tmpPathOf u) "messages.jsonl" u with _ | e
          · rcases himp : env.imp (dsIdOf u (env.now s.clock)) (gcsPathOf u) with _ | e
            · rcases hrm : env.rm (tmpPathOf u) with _ | e
              · refine ⟨content, 6, by omega, ?_, by simp [hds], fun _ => ⟨rfl, rfl⟩⟩
                simp [hds, hsapp, hb, hwr, hupl, himp, hrm, tenantCallSeq, List.take]
              · refine ⟨content, 6, by omega, ?_, by simp [hds], fun _ => ⟨rfl, rfl⟩⟩
                simp [hds, hsapp, hb, hwr, hupl, himp, hrm, tenantCallSeq, List.take]
            · refine ⟨content, 5, by omega, ?_, by simp [hds], fun _ => ⟨rfl, rfl⟩⟩
              simp [hds, hsapp, hb, hwr, hupl, himp, tenantCallSeq, List.take]
          · refine ⟨content, 4, by omega, ?_, by simp [hds], by omega⟩
            simp [hds, hsapp, hb, hwr, hupl, tenantCallSeq, List.take]
        · refine ⟨content, 3, by omega, ?_, by simp [hds], by omega⟩
          simp [hds, hsapp, hb, hwr, tenantCallSeq, List.take]
    · refine ⟨"", 2, by omega, ?_, by simp [hds], by omega⟩
      simp [hds, hsapp, tenantCallSeq, List.take]
  · refine ⟨"", 1, by omega, ?_, by simp [hds], by omega⟩
    simp [hds, tenantCallSeq, List.take]

theorem runKeys_error_decomp (env : Env) (groups : List (String × List InputRecord)) (e : String) :
    ∀ ks s, (runKeys env groups s ks).2 = Except.error e →
      ∃ i, ∃ hi : i < ks.length, ∃ sMid,
        runKeys env groups s (ks.take i) = (sMid, Except.ok ()) ∧
        (stepTenant env sMid (ks.get ⟨i, hi⟩) (findGroup groups (ks.get ⟨i, hi⟩))).2 = some e ∧
        runKeys env groups s ks =
          ((stepTenant env sMid (ks.get ⟨i, hi⟩) (findGroup groups (ks.get ⟨i, hi⟩))).1,
            Except.error e) := by
  intro ks
  induction ks with
  | nil => intro s h; simp [runKeys] at h
  | cons u ks2 ih =>
    intro s h
    rcases hst : stepTenant env s u (findGroup groups u) with ⟨s2, r⟩
    rcases r with _ | e2
    · have l1 : runKeys env groups s (u :: ks2) = runKeys env groups s2 ks2 := by
        simp [runKeys, hst]
      have h2 : (runKeys env groups s2 ks2).2 = Except.error e := by rw [← l1]; exact h
      obtain ⟨i, hi, sMid, hpre, hstep, hrun⟩ := ih s2 h2
      refine ⟨i + 1, by simpa using hi, sMid, ?_, ?_, ?_⟩
      · have ht : (u :: ks2).take (i + 1) = u :: ks2.take i := rfl
        rw [ht]
        have l2 : runKeys env groups s (u :: ks2.take i)
            = runKeys env groups s2 (ks2.take i) := by
          simp [runKeys, hst]
        rw [l2, hpre]
      · show (stepTenant env sMid (ks2.get ⟨i, hi⟩) (findGroup groups (ks2.get ⟨i, hi⟩))).2
            = some e
        exact hstep
      · rw [l1]
        show runKeys env groups s2 ks2 =
          ((stepTenant env sMid (ks2.get ⟨i, hi⟩) (findGroup groups (ks2.get ⟨i, hi⟩))).1,
            Except.error e)
        exact hrun
    · have hr : runKeys env groups s (u :: ks2) = (s2, Except.error e2) := by
        simp [runKeys, hst]
      have he : e2 = e := by
        rw [hr] at h
        injection h
      rw [he] at hst hr
      refine ⟨0, by simp, s, ?_, ?_, ?_⟩
      · simp [runKeys]
      · show (stepTenant env s u (findGroup groups u)).2 = some e
        rw [hst]
      · rw [hr]
        show _ = ((stepTenant env s u (findGroup groups u)).1, Except.error e)
        rw [hst]

theorem apiProcess_err (env : Env) (s : BState) (rows : List InputRecord) (e : String)
    (h : (processInputFile env s rows).2 = Except.error e) :
    (apiProcess env s rows).2 = ApiResponse.err 500 e := by
  rcases hp : processInputFile env s rows with ⟨s3, r⟩
  rw [hp] at h
  simp only at h
  subst h
  simp [apiProcess, hp]

theorem apiProcess_ok (env : Env) (s : BState) (rows : List InputRecord)
    (h : (processInputFile env s rows).2 = Except.ok ()) :
    (apiProcess env s rows).2 = ApiResponse.ok true "Processed all users!" := by
  rcases hp : processInputFile env s rows with ⟨s3, r⟩
  rw [hp] at h
  simp only at h
  subst h
  simp [apiProcess, hp]

theorem lookupFile_setFile (fs : List (String × String)) (p c : String) :
    lookupFile (setFile fs p c) p = some c := by
  induction fs with
  | nil => simp [setFile, lookupFile]
  | cons kv rest ih =>
    obtain ⟨q, x⟩ := kv
    by_cases h : q = p
    · subst h; simp [setFile, lookupFile]
    · simp [setFile, lookupFile, h, ih]

theorem lookupFile_removeFile (fs : List (String × String)) (p : String) :
    lookupFile (removeFile fs p) p = none := by
  induction fs with
  | nil => simp [removeFile, lookupFile]
  | cons kv rest ih =>
    obtain ⟨q, x⟩ := kv
    by_cases h : q = p
    · subst h; simpa [removeFile, lookupFile] using ih
    · simpa [removeFile, lookupFile, h] using ih

theorem lookupRegistry_setRegistry_self (reg : List (String × String × String))
    (u d a : String) : lookupRegistry (setRegistry reg u d a) u = some (d, a) := by
  induction reg with
  | nil => simp [setRegistry, lookupRegistry]
  | cons kv rest ih =>
    obtain ⟨k, x, y⟩ := kv
    by_cases h : k = u
    · subst h; simp [setRegistry, lookupRegistry]
    · simp [setRegistry, lookupRegistry, h, ih]

theorem lookupRegistry_setRegistry_ne (reg : List (String × String × String))
    (u2 d a u : String) (h : u2 ≠ u) :
    lookupRegistry (setRegistry reg u2 d a) u = lookupRegistry reg u := by
  induction reg with
  | nil => simp [setRegistry, lookupRegistry, h]
  | cons kv rest ih =>
    obtain ⟨k, x, y⟩ := kv
    by_cases hk : k = u2
    · subst hk; simp [setRegistry, lookupRegistry, h]
    · simp [setRegistry, lookupRegistry, hk, ih]

theorem staged_lines (g : List InputRecord) (docs : List StagingDocument) (content : String)
    (hne : g ≠ []) (hdocs : buildDocs g = Except.ok docs)
    (hcontent : buildJsonl g = Except.ok content) :
    splitLines content.data = docs.map (fun doc => (stringifyDoc doc).data) ++ [[]] := by
  have hlen := (buildDocs_ok_spec g docs hdocs).1
  have hc : content = joinNL (docs.map stringifyDoc) ++ "\n" := by
    unfold buildJsonl at hcontent
    rw [hdocs] at hcontent
    injection hcontent with hh
    exact hh.symm
  have hdocs_ne : docs.map stringifyDoc ≠ [] := by
    intro hmap
    apply hne
    have hd : docs = [] := by simpa using hmap
    rw [hd] at hlen
    exact List.eq_nil_of_length_eq_zero hlen.symm
  rw [hc, splitLines_joinNL (docs.map stringifyDoc) hdocs_ne ?hnl]
  case hnl =>
    intro t ht
    obtain ⟨doc, _, rfl⟩ := List.mem_map.mp ht
    exact nl_not_mem_stringifyDoc doc
  simp

theorem stepTenant_reg (env : Env) (u : String) (g : List InputRecord) (s : BState)
    (reg : List (String × String × String)) :
    (stepTenant env { s with registry := reg } u g =
      ({ (stepTenant env s u g).1 with registry := reg }, (stepTenant env s u g).2)) ∨
    (stepTenant env { s with registry := reg } u g =
      ({ (stepTenant env s u g).1 with registry := (setRegistry reg u
          (dsIdOf u (env.now s.clock)) (saIdOf u (env.now (s.clock + 1)))) },
        (stepTenant env s u g).2)) := by
  unfold stepTenant
  dsimp only
  rcases hds : env.ds (dsIdOf u (env.now s.clock)) with _ | e
  · rcases hsapp : env.sapp (saIdOf u (env.now (s.clock + 1))) (dsIdOf u (env.now s.clock))
      with _ | e
    · rcases hb : buildJsonl g with e | content
      · right; simp [hds, hsapp, hb]
      · rcases hwr : env.wr (tmpPathOf u) content with _ | e
        · rcases hupl : env.upl (tmpPathOf u) "messages.jsonl" u with _ | e
          · rcases himp : env.imp (dsIdOf u (env.now s.clock)) (gcsPathOf u) with _ | e
            · rcases hrm : env.rm (tmpPathOf u) with _ | e
              · right; simp [hds, hsapp, hb, hwr, hupl, himp, hrm]
              · right; simp [hds, hsapp, hb, hwr, hupl, himp, hrm]
            · right; simp [hds, hsapp, hb, hwr, hupl, himp]
          · right; simp [hds, hsapp, hb, hwr, hupl]
        · right; simp [hds, hsapp, hb, hwr]
    · left; simp [hds, hsapp]
  · left; simp [hds]

theorem runKeys_reg (env : Env) (groups : List (String × List InputRecord)) :
    ∀ ks (s : BState) (reg : List (String × String × String)),
      ∃ reg2, runKeys env groups { s with registry := reg } ks =
        ({ (runKeys env groups s ks).1 with registry := reg2 }, (runKeys env groups s ks).2) ∧
        (∀ u v, lookupRegistry reg u = some v → (∀ k ∈ ks, k ≠ u) →
          lookupRegistry reg2 u = some v) := by
  intro ks
  induction ks with
  | nil =>
    intro s reg
    exact ⟨reg, rfl, fun u v hv _ => hv⟩
  | cons u2 ks2 ih =>
    intro s reg
    rcases hbase : stepTenant env s u2 (findGroup groups u2) with ⟨b1, r⟩
    rcases stepTenant_reg env u2 (findGroup groups u2) s reg with hA | hB
    · rw [hbase] at hA
      rcases r with _ | e
      · obtain ⟨reg2, hrun, hp⟩ := ih b1 reg
        refine ⟨reg2, ?_, fun u v hv hk => hp u v hv
          (fun k hkmem => hk k (List.mem_cons_of_mem u2 hkmem))⟩
        have l1 : runKeys env groups { s with registry := reg } (u2 :: ks2)
            = runKeys env groups { b1 with registry := reg } ks2 := by
          simp [runKeys, hA]
        have l2 : runKeys env groups s (u2 :: ks2) = runKeys env groups b1 ks2 := by
          simp [runKeys, hbase]
        rw [l1, l2, hrun]
      · refine ⟨reg, ?_, fun u v hv _ => hv⟩
        have l1 : runKeys env groups { s with registry := reg } (u2 :: ks2)
            = ({ b1 with registry := reg }, Except.error e) := by
          simp [runKeys, hA]
        have l2 : runKeys env groups s (u2 :: ks2) = (b1, Except.error e) := by
          simp [runKeys, hbase]
        rw [l1, l2]
    · rw [hbase] at hB
      rcases r with _ | e
      · obtain ⟨reg2, hrun, hp⟩ := ih b1
          (setRegistry reg u2 (dsIdOf u2 (env.now s.clock)) (saIdOf u2 (env.now (s.clock + 1))))
        refine ⟨reg2, ?_, ?_⟩
        · have l1 : runKeys env groups { s with registry := reg } (u2 :: ks2)
              = runKeys env groups { b1 with registry := (setRegistry reg u2
                  (dsIdOf u2 (env.now s.clock)) (saIdOf u2 (env.now (s.clock + 1)))) } ks2 := by
            simp [runKeys, hB]
          have l2 : runKeys env groups s (u2 :: ks2) = runKeys env groups b1 ks2 := by
            simp [runKeys, hbase]
          rw [l1, l2, hrun]
        · intro u v hv hk
          apply hp u v
          · rw [lookupRegistry_setRegistry_ne reg u2 _ _ u
              (fun hq => hk u2 (List.mem_cons_self u2 ks2) hq)]
            exact hv
          · exact fun k hkmem => hk k (List.mem_cons_of_mem u2 hkmem)
      · refine ⟨setRegistry reg u2 (dsIdOf u2 (env.now s.clock))
            (saIdOf u2 (env.now (s.clock + 1))), ?_, ?_⟩
        · have l1 : runKeys env groups { s with registry := reg } (u2 :: ks2)
              = ({ b1 with registry := (setRegistry reg u2 (dsIdOf u2 (env.now s.clock))
                    (saIdOf u2 (env.now (s.clock + 1)))) }, Except.error e) := by
            simp [runKeys, hB]
          have l2 : runKeys env groups s (u2 :: ks2) = (b1, Except.error e) := by
            simp [runKeys, hbase]
          rw [l1, l2]
        · intro u v hv hk
          rw [lookupRegistry_setRegistry_ne reg u2 _ _ u
            (fun hq => hk u2 (List.mem_cons_self u2 ks2) hq)]
          exact hv

end VertexSearch
namespace VertexSearch

/-- C1: if any pipeline step fails for some tenant, the whole batch aborts.
Unless the token fetch itself failed (then no tenant is touched at all),
there is a position i in the processing order such that the tenants before
i all completed successfully, the step of the i-th tenant failed with
exactly the reported message, and the final state of the whole batch is
the state immediately after that failing step — so no remote call or file
write happens for the failing tenant beyond its own aborted call prefix,
and none at all for any tenant later in the processing order (their calls
would have extended the trace past it). The batch-trigger boundary reports
the single failure message with status 500; the response is a function of
that message alone, so it does not distinguish which tenant or which step
failed. -/
theorem claim1_abort_single_failure (env : Env) (s : BState) (rows : List InputRecord)
    (e : String) (hfail : (processInputFile env s rows).2 = Except.error e) :
    (apiProcess env s rows).2 = ApiResponse.err 500 e ∧
    ((env.token = Except.error e ∧ (processInputFile env s rows).1 = s) ∨
      ∃ i, ∃ hi : i < (tenantObjectKeys (userGroupsOf rows)).length, ∃ sMid,
        runKeys env (userGroupsOf rows) s ((tenantObjectKeys (userGroupsOf rows)).take i) =
          (sMid, Except.ok ()) ∧
        (stepTenant env sMid ((tenantObjectKeys (userGroupsOf rows)).get ⟨i, hi⟩)
          (findGroup (userGroupsOf rows)
            ((tenantObjectKeys (userGroupsOf rows)).get ⟨i, hi⟩))).2 = some e ∧
        processInputFile env s rows =
          ((stepTenant env sMid ((tenantObjectKeys (userGroupsOf rows)).get ⟨i, hi⟩)
            (findGroup (userGroupsOf rows)
              ((tenantObjectKeys (userGroupsOf rows)).get ⟨i, hi⟩))).1,
            Except.error e) ∧
        ∃ content k, k ≤ 6 ∧
          (processInputFile env s rows).1.trace = sMid.trace ++
            (tenantCallSeq ((tenantObjectKeys (userGroupsOf rows)).get ⟨i, hi⟩)
              (dsIdOf ((tenantObjectKeys (userGroupsOf rows)).get ⟨i, hi⟩)
                (env.now sMid.clock))
              (saIdOf ((tenantObjectKeys (userGroupsOf rows)).get ⟨i, hi⟩)
                (env.now (sMid.clock + 1))) content).take k) ∧
    (∀ env2 s2 rows2, (processInputFile env2 s2 rows2).2 = Except.error e →
      (apiProcess env2 s2 rows2).2 = (apiProcess env s rows).2) := by
  refine ⟨apiProcess_err env s rows e hfail, ?_, ?_⟩
  · rcases htok : env.token with e2 | tok
    · have hp : processInputFile env s rows = (s, Except.error e2) := by
        simp [processInputFile, htok]
      rw [hp] at hfail
      injection hfail with he
      subst he
      exact Or.inl ⟨rfl, by rw [hp]⟩
    · have hp : processInputFile env s rows
          = runKeys env (userGroupsOf rows) s (tenantObjectKeys (userGroupsOf rows)) := by
        simp [processInputFile, htok]
      rw [hp] at hfail
      obtain ⟨i, hi, sMid, hpre, hstep, hrun⟩ :=
        runKeys_error_decomp env (userGroupsOf rows) e
          (tenantObjectKeys (userGroupsOf rows)) s hfail
      refine Or.inr ⟨i, hi, sMid, hpre, hstep, by rw [hp]; exact hrun, ?_⟩
      obtain ⟨content, k, hk, htr, _, _⟩ :=
        stepTenant_trace_take env sMid ((tenantObjectKeys (userGroupsOf rows)).get ⟨i, hi⟩)
          (findGroup (userGroupsOf rows) ((tenantObjectKeys (userGroupsOf rows)).get ⟨i, hi⟩))
      refine ⟨content, k, hk, ?_⟩
      rw [hp, hrun]
      exact htr
  · intro env2 s2 rows2 h2
    rw [apiProcess_err env2 s2 rows2 e h2, apiProcess_err env s rows e hfail]

theorem claim1_witness :
    (processInputFile envSappFail initState [recA, recB, recC]).2 = Except.error "sapp boom" ∧
    (apiProcess envSappFail initState [recA, recB, recC]).2 = ApiResponse.err 500 "sapp boom" :=
  ⟨by decide,
   (claim1_abort_single_failure envSappFail initState [recA, recB, recC] "sapp boom"
     (by decide)).1⟩

/-- C2: within each per-tenant pipeline run the attempted calls are a prefix
of the fixed sequence createDataStore, createSearchApp, write, upload,
importData, delete — so createDataStore is issued first, createSearchApp
is issued exactly when createDataStore succeeded, and importData is issued
only when both createDataStore and createSearchApp succeeded. -/
theorem claim2_call_order (env : Env) (s : BState) (u : String) (g : List InputRecord) :
    ∃ tl, (stepTenant env s u g).1.trace = s.trace ++ tl ∧
      ∃ content k, k ≤ 6 ∧
        tl = (tenantCallSeq u (dsIdOf u (env.now s.clock))
          (saIdOf u (env.now (s.clock + 1))) content).take k ∧
        (Event.createSearchApp (saIdOf u (env.now (s.clock + 1)))
            (dsIdOf u (env.now s.clock)) ∈ tl
          ↔ env.ds (dsIdOf u (env.now s.clock)) = none) ∧
        (Event.importData (dsIdOf u (env.now s.clock)) (gcsPathOf u) ∈ tl →
          env.ds (dsIdOf u (env.now s.clock)) = none ∧
          env.sapp (saIdOf u (env.now (s.clock + 1))) (dsIdOf u (env.now s.clock)) = none) := by
  obtain ⟨content, k, hk, htr, hiff, himp⟩ := stepTenant_trace_take env s u g
  refine ⟨_, htr, content, k, hk, rfl, ?_, ?_⟩
  · interval_cases k <;> simp_all [tenantCallSeq, List.take]
  · interval_cases k <;> simp_all [tenantCallSeq, List.take]

/-- C3: grouping partitions the input exactly: the group of key `u` is the
sublist of records whose tenant key is `u`, in input order; every record
lands in the group of its own key with full multiplicity and in no other
group. -/
theorem claim3_partition (rows : List InputRecord) (u : String) :
    findGroup (userGroupsOf rows) u = rows.filter (fun r => r.userPhone == u) ∧
    (∀ r ∈ findGroup (userGroupsOf rows) u, r.userPhone = u) ∧
    (∀ r ∈ rows, (findGroup (userGroupsOf rows) r.userPhone).count r = rows.count r) ∧
    (∀ r ∈ rows, r.userPhone ≠ u → (findGroup (userGroupsOf rows) u).count r = 0) := by
  refine ⟨findGroup_userGroupsOf rows u, ?_, ?_, ?_⟩
  · intro r hr
    rw [findGroup_userGroupsOf] at hr
    simpa using List.of_mem_filter hr
  · intro r _
    rw [findGroup_userGroupsOf]
    exact List.count_filter (by simp)
  · intro r _ hne
    rw [findGroup_userGroupsOf, List.count_eq_zero]
    intro hmem
    have := List.of_mem_filter hmem
    exact hne (by simpa using this)

theorem claim3_witness :
    recA ∈ [recA, recB] ∧
    (findGroup (userGroupsOf [recA, recB]) recA.userPhone).count recA = ([recA, recB]).count recA :=
  ⟨by decide, (claim3_partition [recA, recB] "a").2.2.1 recA (by decide)⟩

/-- C4: for a nonempty tenant group whose records all carry a timestamp,
the staged JSONL content consists of exactly one newline-terminated line
per record, the i-th line being the JSON serialization of the staging
document `{id, content, structData}` built from the i-th record, with id
the sanitized timestamp, content the message and structData the record. -/
theorem claim4_staged_file (g : List InputRecord) (hne : g ≠ [])
    (hts : ∀ r ∈ g, r.timestamp ≠ none) :
    ∃ docs content, buildDocs g = Except.ok docs ∧ buildJsonl g = Except.ok content ∧
      docs.length = g.length ∧
      (∀ i, (h1 : i < g.length) → (h2 : i < docs.length) →
        ∃ t, (g.get ⟨i, h1⟩).timestamp = some t ∧
          docs.get ⟨i, h2⟩ = { id := sanitizeId t, content := (g.get ⟨i, h1⟩).message,
                               structData := g.get ⟨i, h1⟩ }) ∧
      splitLines content.data = docs.map (fun doc => (stringifyDoc doc).data) ++ [[]] := by
  obtain ⟨docs, hdocs⟩ := buildDocs_ok_of_ts g hts
  obtain ⟨hlen, hpt⟩ := buildDocs_ok_spec g docs hdocs
  have hcontent : buildJsonl g = Except.ok (joinNL (docs.map stringifyDoc) ++ "\n") := by
    simp [buildJsonl, hdocs]
  refine ⟨docs, _, hdocs, hcontent, hlen, hpt, ?_⟩
  have hdocs_ne : docs.map stringifyDoc ≠ [] := by
    intro hmap
    apply hne
    have : docs = [] := by simpa using hmap
    rw [this] at hlen
    exact List.eq_nil_of_length_eq_zero hlen.symm
  rw [splitLines_joinNL (docs.map stringifyDoc) hdocs_ne ?hnl]
  case hnl =>
    intro t ht
    obtain ⟨doc, _, rfl⟩ := List.mem_map.mp ht
    exact nl_not_mem_stringifyDoc doc
  simp

theorem claim4_witness :
    (([recA, recB] : List InputRecord) ≠ [] ∧ (∀ r ∈ [recA, recB], r.timestamp ≠ none)) ∧
    (∃ docs content, buildDocs [recA, recB] = Except.ok docs ∧
      buildJsonl [recA, recB] = Except.ok content ∧
      docs.length = ([recA, recB] : List InputRecord).length ∧
      (∀ i, (h1 : i < ([recA, recB] : List InputRecord).length) → (h2 : i < docs.length) →
        ∃ t, (([recA, recB] : List InputRecord).get ⟨i, h1⟩).timestamp = some t ∧
          docs.get ⟨i, h2⟩ = { id := sanitizeId t,
                               content := (([recA, recB] : List InputRecord).get ⟨i, h1⟩).message,
                               structData := ([recA, recB] : List InputRecord).get ⟨i, h1⟩ }) ∧
      splitLines content.data = docs.map (fun doc => (stringifyDoc doc).data) ++ [[]]) :=
  ⟨⟨by decide, by decide⟩, claim4_staged_file [recA, recB] (by decide) (by decide)⟩

/-- C5 counterexample: a tenant group of two records with the same
timestamp `t!` yields two staging documents with the same sanitized id
`t_`, yet the staged file contains two distinct lines (plus the trailing
newline) — the later record does not overwrite the earlier one, so the
file does not contain at most one line per distinct sanitized id. -/
theorem claim5_counterexample :
    buildDocs [recU1, recU2] =
      Except.ok [{ id := "t_", content := "m1", structData := recU1 },
                 { id := "t_", content := "m2", structData := recU2 }] ∧
    buildJsonl [recU1, recU2] = Except.ok dupIdContent ∧
    splitLines dupIdContent.data =
      [(stringifyDoc { id := "t_", content := "m1", structData := recU1 }).data,
       (stringifyDoc { id := "t_", content := "m2", structData := recU2 }).data,
       []] ∧
    (splitLines dupIdContent.data).length = 3 ∧
    stringifyDoc { id := "t_", content := "m1", structData := recU1 } ≠
      stringifyDoc { id := "t_", content := "m2", structData := recU2 } := by decide

/-- C5 (amended): duplicate sanitized ids do not collapse lines in the
staged file: the file has exactly one line per record of the group, and
when two documents share the same sanitized id, both of their lines are
present at their respective positions; any overwrite can only happen
later, server-side at import. -/
theorem claim5_amended (g : List InputRecord) (docs : List StagingDocument) (content : String)
    (hne : g ≠ []) (hdocs : buildDocs g = Except.ok docs)
    (hcontent : buildJsonl g = Except.ok content) :
    splitLines content.data = docs.map (fun doc => (stringifyDoc doc).data) ++ [[]] ∧
    (splitLines content.data).length = g.length + 1 ∧
    (∀ i j, (hi : i < docs.length) → (hj : j < docs.length) → i ≠ j →
      (docs.get ⟨i, hi⟩).id = (docs.get ⟨j, hj⟩).id →
      (splitLines content.data)[i]? = some (stringifyDoc (docs.get ⟨i, hi⟩)).data ∧
      (splitLines content.data)[j]? = some (stringifyDoc (docs.get ⟨j, hj⟩)).data) := by
  have hlen := (buildDocs_ok_spec g docs hdocs).1
  have hsplit := staged_lines g docs content hne hdocs hcontent
  refine ⟨hsplit, ?_, ?_⟩
  · rw [hsplit]
    simp [hlen]
  · intro i j hi hj _ _
    constructor
    · rw [hsplit, List.getElem?_append_left (by simpa using hi), List.getElem?_map,
        List.getElem?_eq_getElem hi]
      simp
    · rw [hsplit, List.getElem?_append_left (by simpa using hj), List.getElem?_map,
        List.getElem?_eq_getElem hj]
      simp

theorem claim5_witness :
    (splitLines dupIdContent.data).length = ([recU1, recU2] : List InputRecord).length + 1 :=
  (claim5_amended [recU1, recU2]
    [{ id := "t_", content := "m1", structData := recU1 },
     { id := "t_", content := "m2", structData := recU2 }]
    dupIdContent (by decide) (by decide) (by decide)).2.1

/-- C7 counterexample: two all-success batches with one and with two
tenants produce the same fixed success response, so the success response
does not contain (or even determine) the count of tenants processed. -/
theorem claim7_counterexample :
    (apiProcess envAllOk initState [recA]).2 = ApiResponse.ok true "Processed all users!" ∧
    (apiProcess envAllOk initState [recA, recB]).2 = ApiResponse.ok true "Processed all users!" ∧
    (userGroupsOf [recA]).length = 1 ∧
    (userGroupsOf [recA, recB]).length = 2 ∧
    (apiProcess envAllOk initState [recA]).2 = (apiProcess envAllOk initState [recA, recB]).2 := by
  decide

/-- C7 (amended): when every tenant completes successfully, the
batch-trigger boundary returns the fixed response
`{success: true, message: "Processed all users!"}`; the response is the
same for every all-success batch and carries no tenant count. -/
theorem claim7_amended (env : Env) (s : BState) (rows : List InputRecord)
    (h : (processInputFile env s rows).2 = Except.ok ()) :
    (apiProcess env s rows).2 = ApiResponse.ok true "Processed all users!" ∧
    ∀ env2 s2 rows2, (processInputFile env2 s2 rows2).2 = Except.ok () →
      (apiProcess env2 s2 rows2).2 = (apiProcess env s rows).2 := by
  refine ⟨apiProcess_ok env s rows h, ?_⟩
  intro env2 s2 rows2 h2
  rw [apiProcess_ok env2 s2 rows2 h2, apiProcess_ok env s rows h]

theorem claim7_witness :
    (processInputFile envAllOk initState [recA]).2 = Except.ok () ∧
    (apiProcess envAllOk initState [recA]).2 = ApiResponse.ok true "Processed all users!" :=
  ⟨by decide, (claim7_amended envAllOk initState [recA] (by decide)).1⟩

/-- C9 counterexample: when the upload fails, the tenant step ends with
the staged file still present on disk — `fs.unlinkSync` on line 126 is
never reached on that exit path. -/
theorem claim9_counterexample :
    (processInputFile envUplFail initState [recA]).2 = Except.error "upload failed" ∧
    lookupFile (processInputFile envUplFail initState [recA]).1.files (tmpPathOf "a") ≠ none := by
  decide

/-- C9 (amended): on the success path the staged file is deleted before the
tenant step ends, but when the upload or the import fails, the step ends
with the staged file still present (holding the staged content). -/
theorem claim9_amended (env : Env) (s : BState) (u : String) (g : List InputRecord) :
    ((stepTenant env s u g).2 = none →
      lookupFile (stepTenant env s u g).1.files (tmpPathOf u) = none) ∧
    (∀ content, buildJsonl g = Except.ok content →
      env.ds (dsIdOf u (env.now s.clock)) = none →
      env.sapp (saIdOf u (env.now (s.clock + 1))) (dsIdOf u (env.now s.clock)) = none →
      env.wr (tmpPathOf u) content = none →
      (env.upl (tmpPathOf u) "messages.jsonl" u ≠ none ∨
        (env.upl (tmpPathOf u) "messages.jsonl" u = none ∧
          env.imp (dsIdOf u (env.now s.clock)) (gcsPathOf u) ≠ none)) →
      lookupFile (stepTenant env s u g).1.files (tmpPathOf u) = some content) := by
  constructor
  · intro hok
    unfold stepTenant at hok ⊢
    rcases hds : env.ds (dsIdOf u (env.now s.clock)) with _ | e
    · rcases hsapp : env.sapp (saIdOf u (env.now (s.clock + 1))) (dsIdOf u (env.now s.clock))
        with _ | e
      · rcases hb : buildJsonl g with e | content
        · simp [hds, hsapp, hb] at hok
        · rcases hwr : env.wr (tmpPathOf u) content with _ | e
          · rcases hupl : env.upl (tmpPathOf u) "messages.jsonl" u with _ | e
            · rcases himp : env.imp (dsIdOf u (env.now s.clock)) (gcsPathOf u) with _ | e
              · rcases hrm : env.rm (tmpPathOf u) with _ | e
                · simp [hds, hsapp, hb, hwr, hupl, himp, hrm, lookupFile_removeFile]
                · simp [hds, hsapp, hb, hwr, hupl, himp, hrm] at hok
              · simp [hds, hsapp, hb, hwr, hupl, himp] at hok
            · simp [hds, hsapp, hb, hwr, hupl] at hok
          · simp [hds, hsapp, hb, hwr] at hok
      · simp [hds, hsapp] at hok
    · simp [hds] at hok
  · intro content hb hds hsapp hwr hfail
    unfold stepTenant
    rcases hfail with hupl | ⟨hupl, himp⟩
    · rcases hu : env.upl (tmpPathOf u) "messages.jsonl" u with _ | e
      · exact absurd hu hupl
      · simp [hds, hsapp, hb, hwr, hu, lookupFile_setFile]
    · rcases hi : env.imp (dsIdOf u (env.now s.clock)) (gcsPathOf u) with _ | e
      · exact absurd hi himp
      · simp [hds, hsapp, hb, hwr, hupl, hi, lookupFile_setFile]

theorem claim9_witness :
    lookupFile (stepTenant envAllOk initState "a" [recA]).1.files (tmpPathOf "a") = none :=
  (claim9_amended envAllOk initState "a" [recA]).1 (by decide)

/-- C10: if some record of the tenant group lacks a (string) timestamp,
and the two provisioning calls succeed, the tenant step throws the raw
`TypeError` while building the staged documents — after the datastore and
search app have been created and registered, with no staging write, upload
or import attempted; when every record carries a timestamp this error
branch is unreachable. -/
theorem claim10_missing_timestamp (env : Env) (s : BState) (u : String) (g : List InputRecord)
    (hmiss : ∃ r ∈ g, r.timestamp = none)
    (hds : env.ds (dsIdOf u (env.now s.clock)) = none)
    (hsapp : env.sapp (saIdOf u (env.now (s.clock + 1))) (dsIdOf u (env.now s.clock)) = none) :
    (stepTenant env s u g).2 = some typeErrorMsg ∧
    (stepTenant env s u g).1.trace = s.trace ++
      [Event.createDataStore (dsIdOf u (env.now s.clock)),
       Event.createSearchApp (saIdOf u (env.now (s.clock + 1))) (dsIdOf u (env.now s.clock))] ∧
    lookupRegistry (stepTenant env s u g).1.registry u =
      some (dsIdOf u (env.now s.clock), saIdOf u (env.now (s.clock + 1))) ∧
    (stepTenant env s u g).1.files = s.files ∧
    (∀ g2 : List InputRecord, (∀ r ∈ g2, r.timestamp ≠ none) →
      ∃ docs, buildDocs g2 = Except.ok docs) := by
  have hberr : buildJsonl g = Except.error typeErrorMsg := by
    unfold buildJsonl
    rw [buildDocs_error_of_missing g hmiss]
  unfold stepTenant
  simp [hds, hsapp, hberr, lookupRegistry_setRegistry_self]
  exact fun g2 h2 => buildDocs_ok_of_ts g2 h2

theorem claim10_witness :
    (∃ r ∈ [recNoTs], r.timestamp = none) ∧
    (stepTenant envAllOk initState "u" [recNoTs]).2 = some typeErrorMsg :=
  ⟨⟨recNoTs, by decide, rfl⟩,
   (claim10_missing_timestamp envAllOk initState "u" [recNoTs]
     ⟨recNoTs, by decide, rfl⟩ (by decide) (by decide)).1⟩

/-- C6 counterexample: with tenant keys `"2"` (seen first) and `"1"`,
`Object.keys` enumerates the canonical array-index keys in ascending
numeric order, so tenant `"1"` is processed first even though `"2"`
occurred first in the input — the first event of the run is the datastore
creation of tenant `"1"`. -/
theorem claim6_counterexample :
    dedupFirst (([rec2, rec1] : List InputRecord).map (fun r => r.userPhone)) = ["2", "1"] ∧
    tenantObjectKeys (userGroupsOf [rec2, rec1]) = ["1", "2"] ∧
    (processInputFile envAllOk initState [rec2, rec1]).1.trace.head? =
      some (Event.createDataStore "datastore-1-7") ∧
    tenantObjectKeys (userGroupsOf [rec2, rec1]) ≠
      dedupFirst (([rec2, rec1] : List InputRecord).map (fun r => r.userPhone)) := by decide

/-- C6 (amended): tenants are processed in ECMAScript object key
enumeration order applied to the first-seen distinct keys: keys that are
canonical array indices (canonical decimal for some n < 2^32 - 1) come
first in ascending numeric order, then the remaining keys in first-seen
order; in particular, when no tenant key is a canonical array index, the
processing order is exactly first-seen key order. -/
theorem claim6_amended (rows : List InputRecord) :
    tenantObjectKeys (userGroupsOf rows) =
      objectKeysOrder (dedupFirst (rows.map (fun r => r.userPhone))) ∧
    ((∀ k ∈ dedupFirst (rows.map (fun r => r.userPhone)), isArrayIndex k = false) →
      tenantObjectKeys (userGroupsOf rows) = dedupFirst (rows.map (fun r => r.userPhone))) := by
  have hkeys := keys_userGroupsOf rows
  refine ⟨by rw [tenantObjectKeys, hkeys], ?_⟩
  intro hna
  rw [tenantObjectKeys, hkeys]
  unfold objectKeysOrder
  have h1 : (dedupFirst (rows.map (fun r => r.userPhone))).filter (fun k => isArrayIndex k)
      = [] := by
    rw [List.filter_eq_nil_iff]
    intro k hk
    simp [hna k hk]
  have h2 : (dedupFirst (rows.map (fun r => r.userPhone))).filter (fun k => !(isArrayIndex k))
      = dedupFirst (rows.map (fun r => r.userPhone)) := by
    rw [List.filter_eq_self]
    intro k hk
    simp [hna k hk]
  rw [h1, h2]
  simp

theorem claim6_witness :
    tenantObjectKeys (userGroupsOf [recA, recB]) =
      dedupFirst (([recA, recB] : List InputRecord).map (fun r => r.userPhone)) :=
  (claim6_amended [recA, recB]).2 (by decide)

/-- C8 counterexample: the `userDatastores` registry is module-level
process state: after one request provisions tenant `a`, the state a second
request starts from still holds the entry of tenant `a`, and after that second
request (for tenant `b`) both entries are present — so a later batch
request does not start with an empty registry. -/
theorem claim8_counterexample :
    (apiProcess envAllOk initState [recA]).1.registry =
      [("a", "datastore-a-7", "searchapp-a-7")] ∧
    (apiProcess envAllOk (apiProcess envAllOk initState [recA]).1 [recB]).1.registry =
      [("a", "datastore-a-7", "searchapp-a-7"), ("b", "datastore-b-7", "searchapp-b-7")] := by
  decide

/-- C8 (amended): the registry is write-only audit state for the pipeline:
the outcome, trace and file effects of a batch run are independent of the
registry contents it starts from, and an entry whose tenant key is not
processed by the batch survives the batch unchanged — entries therefore
persist across requests within the same process instead of being
discarded. -/
theorem claim8_amended (env : Env) (s : BState) (rows : List InputRecord)
    (reg1 reg2 : List (String × String × String)) :
    (processInputFile env { s with registry := reg1 } rows).2 =
      (processInputFile env { s with registry := reg2 } rows).2 ∧
    (processInputFile env { s with registry := reg1 } rows).1.trace =
      (processInputFile env { s with registry := reg2 } rows).1.trace ∧
    (processInputFile env { s with registry := reg1 } rows).1.files =
      (processInputFile env { s with registry := reg2 } rows).1.files ∧
    (∀ u v, lookupRegistry reg1 u = some v →
      (∀ k ∈ tenantObjectKeys (userGroupsOf rows), k ≠ u) →
      lookupRegistry (processInputFile env { s with registry := reg1 } rows).1.registry u
        = some v) := by
  rcases htok : env.token with e | tok
  · have hp1 : processInputFile env { s with registry := reg1 } rows
        = ({ s with registry := reg1 }, Except.error e) := by
      simp [processInputFile, htok]
    have hp2 : processInputFile env { s with registry := reg2 } rows
        = ({ s with registry := reg2 }, Except.error e) := by
      simp [processInputFile, htok]
    rw [hp1, hp2]
    exact ⟨rfl, rfl, rfl, fun u v hv _ => hv⟩
  · have hp1 : processInputFile env { s with registry := reg1 } rows
        = runKeys env (userGroupsOf rows) { s with registry := reg1 }
            (tenantObjectKeys (userGroupsOf rows)) := by
      simp [processInputFile, htok]
    have hp2 : processInputFile env { s with registry := reg2 } rows
        = runKeys env (userGroupsOf rows) { s with registry := reg2 }
            (tenantObjectKeys (userGroupsOf rows)) := by
      simp [processInputFile, htok]
    obtain ⟨rA, hA, hpA⟩ := runKeys_reg env (userGroupsOf rows)
      (tenantObjectKeys (userGroupsOf rows)) s reg1
    obtain ⟨rB, hB, _⟩ := runKeys_reg env (userGroupsOf rows)
      (tenantObjectKeys (userGroupsOf rows)) s reg2
    rw [hp1, hp2, hA, hB]
    exact ⟨rfl, rfl, rfl, fun u v hv hk => hpA u v hv hk⟩

theorem claim8_witness :
    lookupRegistry (processInputFile envAllOk
        { initState with registry := [("z", "d0", "a0")] } [recA]).1.registry "z"
      = some ("d0", "a0") :=
  (claim8_amended envAllOk initState [recA] [("z", "d0", "a0")] []).2.2.2
    "z" ("d0", "a0") (by decide) (by decide)

end VertexSearch
